import Mathlib

/-!
Shallow embedding of the `lab_ref` package (files `lab_ref/models.py` and
`lab_ref/utils.py`).  Python numbers (ints and floats used only through
comparisons) are modelled as rationals; Python dicts that preserve insertion
order are modelled as association lists with first-match lookup; Python
`raise ValueError` is modelled as `Option`/`Except` failure.
-/

/-- Association-list lookup: first entry whose key matches (Python `d[k]` /
`k in d`). -/
def lookupA {α : Type} : List (String × α) → String → Option α
  | [], _ => none
  | (k, v) :: rest, key => if k = key then some v else lookupA rest key

/-- Python dict assignment `d[k] = v`: replace in place if the key exists
(keeping its position), otherwise append at the end. -/
def setAssoc {α : Type} : List (String × α) → String → α → List (String × α)
  | [], key, v => [(key, v)]
  | (k, w) :: rest, key, v =>
    if k = key then (k, v) :: rest else (k, w) :: setAssoc rest key v

/-- `models.AgeRange`: an age band with its reference bounds. -/
structure AgeRange where
  age_min : ℚ
  age_max : ℚ
  min_value : ℚ
  max_value : ℚ
  unit : String
deriving DecidableEq, Repr

/-- `AgeRange.contains_age`: `self.age_min <= age < self.age_max`. -/
def AgeRange.contains_age (a : AgeRange) (age : ℚ) : Bool :=
  a.age_min ≤ age && age < a.age_max

/-- A simple (non age-banded) reference: `{"min": .., "max": .., "unit": ..}`. -/
structure SimpleRef where
  min : ℚ
  max : ℚ
  unit : String
deriving DecidableEq, Repr

/-- The dictionary returned by `Reference.get_reference`: always `min`, `max`,
`unit`; `age_min`/`age_max` present exactly for age-banded matches. -/
structure RefOut where
  min : ℚ
  max : ℚ
  unit : String
  age_min : Option ℚ
  age_max : Option ℚ
deriving DecidableEq, Repr

/-- The dict built at models.py lines 97-103 from a matching age band. -/
def RefOut.ofBand (b : AgeRange) : RefOut :=
  ⟨b.min_value, b.max_value, b.unit, some b.age_min, some b.age_max⟩

/-- The dict stored by `add_simple_reference` and returned at line 108. -/
def RefOut.ofSimple (s : SimpleRef) : RefOut :=
  ⟨s.min, s.max, s.unit, none, none⟩

/-- The three-way comparison shared by `AgeRange.check_value`,
`Reference.check_value` (models.py 119-124) and `utils.check_value`
(utils.py 231-236): `value < min → "below"`, `value > max → "above"`,
else `"normal"`. -/
def classify (value mn mx : ℚ) : String :=
  if value < mn then "below" else if value > mx then "above" else "normal"

/-- `models.Reference`: `_age_ranges` and `_simple_refs` keyed by sex. -/
structure Reference where
  name : String
  name_ru : String
  age_ranges : List (String × List AgeRange)
  simple_refs : List (String × SimpleRef)
deriving DecidableEq, Repr

/-- `Reference.add_age_range`: create the key with an empty list if absent,
then append the band to that key's list. -/
def addAgeRange : List (String × List AgeRange) → String → AgeRange →
    List (String × List AgeRange)
  | [], sex, b => [(sex, [b])]
  | (k, l) :: rest, sex, b =>
    if k = sex then (k, l ++ [b]) :: rest else (k, l) :: addAgeRange rest sex b

/-- The sex search order built at models.py 86-89: `[sex]` when `sex` is
truthy (non-`None`, non-empty), then `["all", "male", "female"]`. -/
def search_order (sex : Option String) : List String :=
  (match sex with
   | some s => if s = "" then [] else [s]
   | none => []) ++ ["all", "male", "female"]

/-- The age-banded pass (models.py 93-103): iterate the search order; for
each sex key present in `_age_ranges`, return the first band containing the
age; otherwise continue with the next key. -/
def agePass (ar : List (String × List AgeRange)) : List String → ℚ → Option AgeRange
  | [], _ => none
  | s :: rest, age =>
    match lookupA ar s with
    | some bands =>
      match bands.find? (fun b => b.contains_age age) with
      | some b => some b
      | none => agePass ar rest age
    | none => agePass ar rest age

/-- The simple-reference pass (models.py 106-108): first sex key of the
search order present in `_simple_refs`. -/
def simplePass (sr : List (String × SimpleRef)) : List String → Option SimpleRef
  | [] => none
  | s :: rest =>
    match lookupA sr s with
    | some v => some v
    | none => simplePass sr rest

/-- `Reference.get_reference` (models.py 72-110): age-banded pass when `age`
is given, then the simple pass; `none` models the final `ValueError`. -/
def Reference.get_reference (r : Reference) (sex : Option String)
    (age : Option ℚ) : Option RefOut :=
  let order := search_order sex
  match age with
  | some a =>
    match agePass r.age_ranges order a with
    | some b => some (RefOut.ofBand b)
    | none => (simplePass r.simple_refs order).map RefOut.ofSimple
  | none => (simplePass r.simple_refs order).map RefOut.ofSimple

/-- `Reference.check_value` (models.py 112-124): resolve, then classify. -/
def Reference.check_value (r : Reference) (value : ℚ) (sex : Option String)
    (age : Option ℚ) : Option String :=
  (r.get_reference sex age).map (fun o => classify value o.min o.max)

/-- One entry of a study's `tests` list: `{"test_name": .., "required": ..}`. -/
structure StudyTest where
  test_name : String
  required : Bool
deriving DecidableEq, Repr

/-- One study of `lab_studies.json` as used by `LabStudyManager`:
`biomaterials`, optional `preferred_biomaterial`, and the `tests` list. -/
structure StudyInfo where
  biomaterials : List String
  preferred_biomaterial : Option String
  tests : List StudyTest
deriving DecidableEq, Repr

/-- `LabStudyManager.get_preferred_biomaterial` (models.py 585-588):
`study.get("preferred_biomaterial", biomaterials[0] if biomaterials else "")`;
`utils.get_preferred_biomaterial` (utils.py 449-460) is the same expression. -/
def get_preferred_biomaterial (s : StudyInfo) : String :=
  match s.preferred_biomaterial with
  | some p => p
  | none =>
    match s.biomaterials with
    | [] => ""
    | b :: _ => b

/-- `models.Test`: a reference bound to a value and patient data. -/
structure TestObj where
  reference : Reference
  value : Option ℚ
  sex : Option String
  age : Option ℚ
deriving DecidableEq, Repr

/-- `models.StudyResult`'s state: identity fields plus the `_tests` dict. -/
structure StudyResult where
  study_name : String
  biomaterial_type : String
  sex : Option String
  age : Option ℚ
  tests : List (String × TestObj)
deriving DecidableEq, Repr

/-- The distinct `ValueError`s raised along the study paths (spec §7 names). -/
inductive LabErr where
  | StudyNotFound
  | BiomaterialNotEligible
  | TestNotInStudy
  | CatalogUnavailable
  | TestNotFoundInBiomaterial
deriving DecidableEq, Repr

/-- `LabStudyManager`'s loaded state: `_studies`, and one catalog of
`Reference`s per biomaterial type (the `BiomaterialManager._references` the
lazy `_get_biomaterial_manager` would build; an absent key models a
biomaterial whose JSON file cannot be loaded). -/
structure LabStudyManager where
  studies : List (String × StudyInfo)
  catalogs : List (String × List (String × Reference))
deriving DecidableEq, Repr

/-- `LabStudyManager.create_study_result` (models.py 604-615) combined with
`StudyResult.__init__`'s eligibility re-check (models.py 656-659). -/
def create_study_result (mgr : LabStudyManager) (study_name : String)
    (biomaterial_type : Option String) (sex : Option String) (age : Option ℚ) :
    Except LabErr StudyResult :=
  match lookupA mgr.studies study_name with
  | none => .error .StudyNotFound
  | some study =>
    match biomaterial_type with
    | none =>
      -- chosen biomaterial is the preferred one; __init__ re-checks eligibility
      let bt := get_preferred_biomaterial study
      if bt ∈ study.biomaterials then .ok ⟨study_name, bt, sex, age, []⟩
      else .error .BiomaterialNotEligible
    | some bt =>
      if bt ∈ study.biomaterials then .ok ⟨study_name, bt, sex, age, []⟩
      else .error .BiomaterialNotEligible

/-- `StudyResult.add_result` (models.py 661-673): study membership check on
the `test_name` fields, then reference lookup in the bound biomaterial's
catalog, then `self._tests[test_name] = Test(...)`. -/
def StudyResult.add_result (mgr : LabStudyManager) (r : StudyResult)
    (test_name : String) (value : ℚ) : Except LabErr StudyResult :=
  match lookupA mgr.studies r.study_name with
  | none => .error .StudyNotFound
  | some study =>
    if test_name ∈ study.tests.map StudyTest.test_name then
      match lookupA mgr.catalogs r.biomaterial_type with
      | none => .error .CatalogUnavailable
      | some cat =>
        match lookupA cat test_name with
        | none => .error .TestNotFoundInBiomaterial
        | some ref =>
          .ok { r with
                tests := setAssoc r.tests test_name ⟨ref, some value, r.sex, r.age⟩ }
    else .error .TestNotInStudy

/-- `StudyResult.add_results` (models.py 675-679): `add_result` for each
entry in order.  A Python exception leaves `self` with all mutations made by
the successful earlier calls, so the result is the state reached so far
paired with the error, if any. -/
def StudyResult.add_results (mgr : LabStudyManager) (r : StudyResult) :
    List (String × ℚ) → StudyResult × Option LabErr
  | [] => (r, none)
  | (n, v) :: rest =>
    match StudyResult.add_result mgr r n v with
    | .ok r2 => StudyResult.add_results mgr r2 rest
    | .error e => (r, some e)

/-- A value of the per-test JSON mapping in a reference file: a string
(e.g. `name_ru`), an age-band list, or a simple range dict. -/
inductive JVal where
  | str (s : String)
  | bands (l : List AgeRange)
  | simple (s : SimpleRef)
deriving DecidableEq, Repr

/-- `Reference.from_dict` (models.py 126-159): skip `name_ru`; a list value
adds age bands under its key in order; a dict value with `min` adds a simple
reference; other values are ignored. -/
def Reference.from_dict (name : String) (data : List (String × JVal)) : Reference :=
  let name_ru :=
    match lookupA data "name_ru" with
    | some (.str s) => if s = "" then name else s
    | _ => name
  data.foldl
    (fun r kv =>
      if kv.1 = "name_ru" then r
      else
        match kv.2 with
        | .bands l =>
          { r with age_ranges := l.foldl (fun ar b => addAgeRange ar kv.1 b) r.age_ranges }
        | .simple s => { r with simple_refs := setAssoc r.simple_refs kv.1 s }
        | .str _ => r)
    ⟨name, name_ru, [], []⟩

/-- What `utils.get_reference` can hand back for a single test: a range dict,
or — when neither the sex key nor `"all"` is present — the whole per-test
mapping itself (utils.py 193-194 with 203-204). -/
inductive URes where
  | range (o : RefOut)
  | table (d : List (String × JVal))
deriving DecidableEq, Repr

/-- The `sex_refs` selection of utils.get_reference (utils.py 189-194):
`ref[sex]` when `sex` is truthy and present, else `ref["all"]` when present,
else the whole `ref` mapping. -/
def pickSexRefs (ref : List (String × JVal)) (sex : Option String) :
    Sum JVal (List (String × JVal)) :=
  let fallback :=
    match lookupA ref "all" with
    | some v => Sum.inl v
    | none => Sum.inr ref
  match sex with
  | none => fallback
  | some s =>
    if s = "" then fallback
    else
      match lookupA ref s with
      | some v => Sum.inl v
      | none => fallback

/-- `utils.get_reference` (utils.py 164-206) restricted to one test's data
(the `ref = refs.get(test_name)` value): `none` models every `ValueError`
on this path (`if not ref`, no age band found, and "Reference format
error"). -/
def utils_get_reference (ref : List (String × JVal)) (sex : Option String)
    (age : Option ℚ) : Option URes :=
  if ref.isEmpty then none
  else
    match pickSexRefs ref sex with
    | .inl (.bands l) =>
      match age with
      | some a =>
        (l.find? (fun b => b.contains_age a)).map (fun b => .range (RefOut.ofBand b))
      | none => none
    | .inl (.simple s) => some (.range (RefOut.ofSimple s))
    | .inl (.str _) => none
    | .inr d => some (.table d)

/-- The flattened list of age-band candidates visited by the age-banded pass:
bands of each search-order key in key order, each key's bands in insertion
order. -/
def ageCandidates (ar : List (String × List AgeRange)) : List String → List AgeRange
  | [] => []
  | s :: rest => (lookupA ar s).getD [] ++ ageCandidates ar rest

-- Concrete data used by the counterexamples and witnesses.

/-- Male age band 0-18 of the fall-through example. -/
def bandM1 : AgeRange := ⟨0, 18, 120, 160, "g/L"⟩

/-- Female age band 0-200 of the fall-through example. -/
def bandF1 : AgeRange := ⟨0, 200, 110, 150, "g/L"⟩

/-- Male simple reference of the fall-through example. -/
def simpleM1 : SimpleRef := ⟨130, 170, "g/L"⟩

/-- A table whose `male` key has one age band not covering age 50, a
`female` key whose band does, and a `male` simple reference. -/
def exRef1 : Reference :=
  ⟨"hb", "hb", [("male", [bandM1]), ("female", [bandF1])], [("male", simpleM1)]⟩

/-- The spec's scenario-2 table: `male` bands 0-18 and 18-150, no simple
reference. -/
def exRef4 : Reference :=
  ⟨"hemoglobin", "hemoglobin",
   [("male", [⟨0, 18, 120, 160, "g/L"⟩, ⟨18, 150, 130, 170, "g/L"⟩])], []⟩

/-- Reference used by the study examples. -/
def refA : Reference := ⟨"a", "a", [], [("all", ⟨0, 10, "u"⟩)]⟩

/-- Study declaring the single test `a` on biomaterial `blood`. -/
def exStudy7 : StudyInfo := ⟨["blood"], some "blood", [⟨"a", true⟩]⟩

/-- Manager holding `exStudy7` and a `blood` catalog defining test `a`. -/
def exMgr7 : LabStudyManager := ⟨[("s", exStudy7)], [("blood", [("a", refA)])]⟩

/-- An empty study result bound to study `s` and biomaterial `blood`. -/
def exR7 : StudyResult := ⟨"s", "blood", none, none, []⟩

/-- Study with biomaterials and a declared preferred one. -/
def exStudyA : StudyInfo := ⟨["venous_blood", "capillary_blood"], some "capillary_blood", []⟩

/-- Study with biomaterials and no declared preferred one. -/
def exStudyB : StudyInfo := ⟨["venous_blood", "capillary_blood"], none, []⟩

/-- Study with no biomaterials and no declared preferred one. -/
def exStudyC : StudyInfo := ⟨[], none, []⟩

/-- Table with a single simple reference keyed `all`. -/
def exRef9 : Reference := ⟨"leukocytes", "leukocytes", [], [("all", ⟨4, 9, "10^9/L"⟩)]⟩

/-- Single age band of the resolver-equivalence counterexample. -/
def band10 : AgeRange := ⟨0, 200, 120, 160, "g/L"⟩

/-- Raw per-test data with only a `male` age-banded entry. -/
def exData10 : List (String × JVal) := [("male", JVal.bands [band10])]

/-- `true` exactly on the range results of `utils_get_reference`. -/
def URes.isRange : URes → Bool
  | .range _ => true
  | .table _ => false

/-! ### Helper lemmas about the classifier -/

theorem classify_below_iff (v mn mx : ℚ) (h : mn ≤ mx) :
    classify v mn mx = "below" ↔ v < mn := by
  unfold classify
  split_ifs with h1 h2 <;> simp_all

theorem classify_above_iff (v mn mx : ℚ) (h : mn ≤ mx) :
    classify v mn mx = "above" ↔ mx < v := by
  unfold classify
  split_ifs with h1 h2
  · simp_all
    linarith
  · simp_all
  · simp_all

theorem classify_normal_iff (v mn mx : ℚ) (h : mn ≤ mx) :
    classify v mn mx = "normal" ↔ mn ≤ v ∧ v ≤ mx := by
  unfold classify
  split_ifs with h1 h2 <;> simp_all

/-! ### Helper lemmas about the resolver passes -/

theorem agePass_cons (ar : List (String × List AgeRange)) (s : String)
    (rest : List String) (a : ℚ) :
    agePass ar (s :: rest) a =
      match ((lookupA ar s).getD []).find? (fun b => b.contains_age a) with
      | some b => some b
      | none => agePass ar rest a := by
  cases hl : lookupA ar s with
  | none => simp [agePass, hl]
  | some bands =>
    cases hb : bands.find? (fun b => b.contains_age a) with
    | none => simp [agePass, hl, hb]
    | some b => simp [agePass, hl, hb]

theorem agePass_eq_find (ar : List (String × List AgeRange)) (order : List String)
    (a : ℚ) :
    agePass ar order a = (ageCandidates ar order).find? (fun b => b.contains_age a) := by
  induction order with
  | nil => rfl
  | cons s rest ih =>
    rw [agePass_cons]
    unfold ageCandidates
    rw [List.find?_append, ih]
    cases ((lookupA ar s).getD []).find? (fun b => b.contains_age a) <;> simp

theorem agePass_dup (ar : List (String × List AgeRange)) (s : String)
    (t : List String) (a : ℚ) :
    agePass ar (s :: s :: t) a = agePass ar (s :: t) a := by
  rw [agePass_cons ar s (s :: t) a, agePass_cons ar s t a]
  cases ((lookupA ar s).getD []).find? (fun b => b.contains_age a) <;> simp

theorem simplePass_dup (sr : List (String × SimpleRef)) (s : String)
    (t : List String) :
    simplePass sr (s :: s :: t) = simplePass sr (s :: t) := by
  cases hl : lookupA sr s <;> simp [simplePass, hl]

/-- First-match characterization of `List.find?`. -/
theorem find_first_iff {α : Type} (p : α → Bool) (l : List α) (b : α) :
    l.find? p = some b ↔
      ∃ l₁ l₂, l = l₁ ++ b :: l₂ ∧ p b = true ∧ ∀ c ∈ l₁, p c = false := by
  induction l with
  | nil =>
    simp only [List.find?_nil]
    constructor
    · intro h
      exact absurd h (by simp)
    · rintro ⟨l₁, l₂, hl, -, -⟩
      exact absurd hl (by simp)
  | cons x xs ih =>
    rw [List.find?_cons]
    cases hx : p x with
    | true =>
      simp only []
      constructor
      · intro h
        refine ⟨[], xs, ?_, ?_, ?_⟩ <;> simp_all
      · rintro ⟨l₁, l₂, hl, hb, hfirst⟩
        cases l₁ with
        | nil =>
          simp only [List.nil_append, List.cons.injEq] at hl
          simp [hl.1]
        | cons y ys =>
          simp only [List.cons_append, List.cons.injEq] at hl
          have : p x = false := hl.1 ▸ hfirst y (by simp)
          simp [this] at hx
    | false =>
      simp only []
      rw [ih]
      constructor
      · rintro ⟨l₁, l₂, hl, hb, hfirst⟩
        refine ⟨x :: l₁, l₂, by simp [hl], hb, ?_⟩
        intro c hc
        rcases List.mem_cons.mp hc with h | h
        · simpa [h] using hx
        · exact hfirst c h
      · rintro ⟨l₁, l₂, hl, hb, hfirst⟩
        cases l₁ with
        | nil =>
          simp only [List.nil_append, List.cons.injEq] at hl
          rw [hl.1] at hx
          simp [hx] at hb
        | cons y ys =>
          simp only [List.cons_append, List.cons.injEq] at hl
          refine ⟨ys, l₂, hl.2, hb, ?_⟩
          intro c hc
          exact hfirst c (by simp [hc])

theorem ofBand_injective (b c : AgeRange) (h : RefOut.ofBand b = RefOut.ofBand c) :
    b = c := by
  cases b; cases c
  simp only [RefOut.ofBand, RefOut.mk.injEq, Option.some.injEq] at h
  simp_all

theorem ofBand_ne_ofSimple (b : AgeRange) (s : SimpleRef) :
    RefOut.ofBand b ≠ RefOut.ofSimple s := by
  simp [RefOut.ofBand, RefOut.ofSimple]

/-- `get_reference` returns an age-banded dict exactly when the age pass
found that band. -/
theorem get_reference_band_iff (r : Reference) (sex : Option String) (a : ℚ)
    (b : AgeRange) :
    Reference.get_reference r sex (some a) = some (RefOut.ofBand b) ↔
      agePass r.age_ranges (search_order sex) a = some b := by
  unfold Reference.get_reference
  cases hp : agePass r.age_ranges (search_order sex) a with
  | some c =>
    simp only [hp, Option.some.injEq]
    constructor
    · exact fun h => ofBand_injective c b h
    · intro h
      rw [h]
  | none =>
    simp only [hp]
    cases hs : simplePass r.simple_refs (search_order sex) with
    | none => simp
    | some s =>
      simp only [hs, Option.map_some']
      constructor
      · intro hh
        exact absurd (Option.some.injEq _ _ ▸ hh) (fun he => ofBand_ne_ofSimple b s he.symm)
      · intro hh
        exact absurd hh (by simp)

/-! ### Claim theorems -/

/-- C1, counterexample: on `exRef1` with sex `male` and age 50, the first
search-order key present among the age-banded entries is `male` and its only
band does not contain 50; the claim therefore requires the simple-range pass
result (the male simple reference), but the code falls through to the
`female` age band and returns it. -/
theorem C1_counterexample :
    Reference.get_reference exRef1 (some "male") (some 50)
      = some (RefOut.ofBand bandF1) ∧
    (simplePass exRef1.simple_refs (search_order (some "male"))).map RefOut.ofSimple
      = some (RefOut.ofSimple simpleM1) ∧
    RefOut.ofBand bandF1 ≠ RefOut.ofSimple simpleM1 :=
  ⟨by rfl, by rfl, by decide⟩

/-- C1, amended: the resolver builds the search order `[s, all, male,
female]`; in the age-banded pass, when the requested sex key's bands do not
contain the age, resolution falls through to the next keys' age-banded
entries, and only when no key's band contains the age does it proceed to
the simple-range pass. -/
theorem C1_fall_through (r : Reference) (s : String) (a : ℚ)
    (hs : s ≠ "")
    (hmiss : ((lookupA r.age_ranges s).getD []).find? (fun b => b.contains_age a)
      = none) :
    search_order (some s) = s :: ["all", "male", "female"] ∧
    Reference.get_reference r (some s) (some a) =
      (match agePass r.age_ranges ["all", "male", "female"] a with
       | some b => some (RefOut.ofBand b)
       | none =>
         (simplePass r.simple_refs (search_order (some s))).map RefOut.ofSimple) := by
  have horder : search_order (some s) = s :: ["all", "male", "female"] := by
    simp [search_order, hs]
  have hstep : agePass r.age_ranges (s :: ["all", "male", "female"]) a
      = agePass r.age_ranges ["all", "male", "female"] a := by
    rw [agePass_cons, hmiss]
  refine ⟨horder, ?_⟩
  simp only [Reference.get_reference]
  rw [horder, hstep]

/-- C1, witness for the amended theorem at a concrete table: the male bands
miss age 50, so the female band is used. -/
theorem C1_fall_through_witness :
    Reference.get_reference exRef1 (some "male") (some 50)
      = some (RefOut.ofBand bandF1) := by
  exact ((C1_fall_through exRef1 "male" 50 (by decide) (by rfl)).2).trans (by rfl)

/-- C2: under `min ≤ max` the classifier returns `below` iff the value is
strictly under `min`, `above` iff strictly over `max`, `normal` iff inside
inclusively; both boundaries classify as `normal`. -/
theorem C2_classifier (mn mx v : ℚ) (h : mn ≤ mx) :
    (classify v mn mx = "below" ↔ v < mn) ∧
    (classify v mn mx = "above" ↔ mx < v) ∧
    (classify v mn mx = "normal" ↔ mn ≤ v ∧ v ≤ mx) ∧
    classify mn mn mx = "normal" ∧
    classify mx mn mx = "normal" :=
  ⟨classify_below_iff v mn mx h, classify_above_iff v mn mx h,
   classify_normal_iff v mn mx h,
   (classify_normal_iff mn mn mx h).mpr ⟨le_refl mn, h⟩,
   (classify_normal_iff mx mn mx h).mpr ⟨h, le_refl mx⟩⟩

/-- C2, witness at the range 0-10 and value 5. -/
theorem C2_classifier_witness :
    (classify 5 0 10 = "below" ↔ (5 : ℚ) < 0) ∧
    (classify 5 0 10 = "above" ↔ (10 : ℚ) < 5) ∧
    (classify 5 0 10 = "normal" ↔ (0 : ℚ) ≤ 5 ∧ (5 : ℚ) ≤ 10) ∧
    classify 0 0 10 = "normal" ∧
    classify 10 0 10 = "normal" :=
  C2_classifier 0 10 5 (by norm_num)

/-- C4: resolution fails exactly when neither the age-banded pass nor the
simple-range pass over the sex search order yields a match; concretely, the
table with male bands 0-18 and 18-150 and no simple reference fails at
`(male, 200)`. -/
theorem C4_reference_not_found :
    (∀ (r : Reference) (sex : Option String) (a : ℚ),
       Reference.get_reference r sex (some a) = none ↔
         agePass r.age_ranges (search_order sex) a = none ∧
         simplePass r.simple_refs (search_order sex) = none) ∧
    (∀ (r : Reference) (sex : Option String),
       Reference.get_reference r sex none = none ↔
         simplePass r.simple_refs (search_order sex) = none) ∧
    Reference.get_reference exRef4 (some "male") (some 200) = none := by
  refine ⟨?_, ?_, by rfl⟩
  · intro r sex a
    simp only [Reference.get_reference]
    cases hp : agePass r.age_ranges (search_order sex) a with
    | some b => simp [hp]
    | none =>
      cases hs : simplePass r.simple_refs (search_order sex) with
      | some s => simp [hs]
      | none => simp [hs]
  · intro r sex
    simp only [Reference.get_reference]
    cases hs : simplePass r.simple_refs (search_order sex) with
    | some s => simp [hs]
    | none => simp [hs]

/-- Boolean containment unfolded to the half-open interval condition. -/
theorem contains_age_iff (b : AgeRange) (x : ℚ) :
    b.contains_age x = true ↔ b.age_min ≤ x ∧ x < b.age_max := by
  simp [AgeRange.contains_age]

theorem contains_age_false_iff (b : AgeRange) (x : ℚ) :
    b.contains_age x = false ↔ ¬(b.age_min ≤ x ∧ x < b.age_max) := by
  rw [← contains_age_iff]
  cases b.contains_age x <;> simp

/-- C3: the resolver returns the age-banded dict of band `b` for age `x`
exactly when `b` occurs among the candidates of the search (search-order
keys, each key's bands in insertion order), `b.age_min ≤ x < b.age_max`,
and no earlier candidate contains `x`. -/
theorem C3_first_matching_band (r : Reference) (sex : Option String) (x : ℚ)
    (b : AgeRange) :
    Reference.get_reference r sex (some x) = some (RefOut.ofBand b) ↔
      ∃ l₁ l₂, ageCandidates r.age_ranges (search_order sex) = l₁ ++ b :: l₂ ∧
        (b.age_min ≤ x ∧ x < b.age_max) ∧
        ∀ c ∈ l₁, ¬(c.age_min ≤ x ∧ x < c.age_max) := by
  rw [get_reference_band_iff, agePass_eq_find, find_first_iff]
  constructor
  · rintro ⟨l₁, l₂, hl, hb, hfirst⟩
    exact ⟨l₁, l₂, hl, (contains_age_iff b x).mp hb,
      fun c hc => (contains_age_false_iff c x).mp (hfirst c hc)⟩
  · rintro ⟨l₁, l₂, hl, hb, hfirst⟩
    exact ⟨l₁, l₂, hl, (contains_age_iff b x).mpr hb,
      fun c hc => (contains_age_false_iff c x).mpr (hfirst c hc)⟩

/-- C9: with an `all` entry present, resolving with sex absent equals
resolving with sex `"all"` (string keys make a `None`-keyed entry
unrepresentable, so that hypothesis of the claim is vacuous here). -/
theorem C9_none_eq_all (r : Reference) (age : Option ℚ)
    (hall : lookupA r.age_ranges "all" ≠ none ∨ lookupA r.simple_refs "all" ≠ none) :
    Reference.get_reference r none age = Reference.get_reference r (some "all") age := by
  have ho1 : search_order none = ["all", "male", "female"] := rfl
  have ho2 : search_order (some "all") = "all" :: ["all", "male", "female"] := rfl
  cases age with
  | none =>
    simp only [Reference.get_reference, ho1, ho2, simplePass_dup]
  | some a =>
    simp only [Reference.get_reference, ho1, ho2, agePass_dup, simplePass_dup]

/-- C9, witness on the `all`-keyed simple table at age 30. -/
theorem C9_none_eq_all_witness :
    Reference.get_reference exRef9 none (some 30)
      = Reference.get_reference exRef9 (some "all") (some 30) :=
  C9_none_eq_all exRef9 (some 30) (Or.inr (by decide))

/-- Keys after a dict assignment are the old keys plus possibly the new
key. -/
theorem mem_keys_setAssoc {α : Type} (d : List (String × α)) (k : String) (v : α)
    (x : String) (hx : x ∈ (setAssoc d k v).map Prod.fst) :
    x ∈ d.map Prod.fst ∨ x = k := by
  induction d with
  | nil =>
    simp [setAssoc] at hx
    exact Or.inr hx
  | cons p rest ih =>
    obtain ⟨a, b⟩ := p
    by_cases hak : a = k
    · rw [show setAssoc ((a, b) :: rest) k v = (a, v) :: rest from by
        simp [setAssoc, hak]] at hx
      simp only [List.map_cons, List.mem_cons] at hx ⊢
      exact Or.inl hx
    · rw [show setAssoc ((a, b) :: rest) k v = (a, b) :: setAssoc rest k v from by
        simp [setAssoc, hak]] at hx
      simp only [List.map_cons, List.mem_cons] at hx ⊢
      rcases hx with h | h
      · exact Or.inl (Or.inl h)
      · rcases ih h with h2 | h2
        · exact Or.inl (Or.inr h2)
        · exact Or.inr h2

/-- C5: a test name outside the declared panel fails with `TestNotInStudy`
whatever the catalogs define, and any successful `add_result` keeps every
stored test identifier inside the declared panel. -/
theorem C5_study_membership (mgr : LabStudyManager) (r : StudyResult)
    (study : StudyInfo) (n : String) (v : ℚ)
    (hs : lookupA mgr.studies r.study_name = some study)
    (hn : n ∉ study.tests.map StudyTest.test_name) :
    StudyResult.add_result mgr r n v = .error .TestNotInStudy ∧
    (∀ (m : String) (w : ℚ) (r2 : StudyResult),
       StudyResult.add_result mgr r m w = .ok r2 →
       (∀ x ∈ r.tests.map Prod.fst, x ∈ study.tests.map StudyTest.test_name) →
       ∀ x ∈ r2.tests.map Prod.fst, x ∈ study.tests.map StudyTest.test_name) := by
  constructor
  · simp only [StudyResult.add_result, hs]
    rw [if_neg hn]
  · intro m w r2 hok hsub x hx
    simp only [StudyResult.add_result, hs] at hok
    by_cases hm : m ∈ study.tests.map StudyTest.test_name
    · rw [if_pos hm] at hok
      cases hc : lookupA mgr.catalogs r.biomaterial_type with
      | none => simp only [hc] at hok; exact absurd hok (by simp)
      | some cat =>
        simp only [hc] at hok
        cases hr : lookupA cat m with
        | none => simp only [hr] at hok; exact absurd hok (by simp)
        | some ref =>
          simp only [hr] at hok
          simp only [Except.ok.injEq] at hok
          rw [← hok] at hx
          rcases mem_keys_setAssoc r.tests m ⟨ref, some w, r.sex, r.age⟩ x hx with h | h
          · exact hsub x h
          · exact h ▸ hm
    · rw [if_neg hm] at hok
      exact absurd hok (by simp)

/-- C5, witness: adding the undeclared test `zzz` fails even though the
catalog side is arbitrary. -/
theorem C5_study_membership_witness :
    StudyResult.add_result exMgr7 exR7 "zzz" 1 = .error .TestNotInStudy :=
  (C5_study_membership exMgr7 exR7 exStudy7 "zzz" 1 (by rfl) (by decide)).1

/-- C6: a biomaterial outside the study's declared list is rejected with
`BiomaterialNotEligible`; with the argument omitted, the preferred
biomaterial is bound (provided it is itself eligible, as the data model
requires). -/
theorem C6_create_result (mgr : LabStudyManager) (sname : String)
    (study : StudyInfo) (sex : Option String) (age : Option ℚ)
    (hs : lookupA mgr.studies sname = some study) :
    (∀ b, b ∉ study.biomaterials →
       create_study_result mgr sname (some b) sex age
         = .error .BiomaterialNotEligible) ∧
    (get_preferred_biomaterial study ∈ study.biomaterials →
       create_study_result mgr sname none sex age =
         .ok ⟨sname, get_preferred_biomaterial study, sex, age, []⟩) := by
  constructor
  · intro b hb
    simp only [create_study_result, hs]
    rw [if_neg hb]
  · intro hp
    simp only [create_study_result, hs]
    rw [if_pos hp]

/-- C6, witness: `nope` is rejected; the omitted argument binds `blood`. -/
theorem C6_create_result_witness :
    create_study_result exMgr7 "s" (some "nope") none none
      = .error .BiomaterialNotEligible ∧
    create_study_result exMgr7 "s" none none none
      = .ok ⟨"s", "blood", none, none, []⟩ :=
  ⟨(C6_create_result exMgr7 "s" exStudy7 none none (by rfl)).1 "nope" (by decide),
   (C6_create_result exMgr7 "s" exStudy7 none none (by rfl)).2 (by decide)⟩

/-- C8: the preferred biomaterial is the declared one; else the first listed
biomaterial; else the empty string. -/
theorem C8_preferred_biomaterial (s : StudyInfo) :
    (∀ p, s.preferred_biomaterial = some p → get_preferred_biomaterial s = p) ∧
    (∀ b rest, s.preferred_biomaterial = none → s.biomaterials = b :: rest →
       get_preferred_biomaterial s = b) ∧
    (s.preferred_biomaterial = none → s.biomaterials = [] →
       get_preferred_biomaterial s = "") := by
  refine ⟨?_, ?_, ?_⟩
  · intro p hp
    simp [get_preferred_biomaterial, hp]
  · intro b rest h1 h2
    simp [get_preferred_biomaterial, h1, h2]
  · intro h1 h2
    simp [get_preferred_biomaterial, h1, h2]

/-- C8, witness on the three degenerate shapes. -/
theorem C8_preferred_biomaterial_witness :
    get_preferred_biomaterial exStudyA = "capillary_blood" ∧
    get_preferred_biomaterial exStudyB = "venous_blood" ∧
    get_preferred_biomaterial exStudyC = "" :=
  ⟨(C8_preferred_biomaterial exStudyA).1 "capillary_blood" rfl,
   (C8_preferred_biomaterial exStudyB).2.1 "venous_blood" ["capillary_blood"] rfl rfl,
   (C8_preferred_biomaterial exStudyC).2.2 rfl rfl⟩

/-- A successful `add_result` changes only the stored tests. -/
theorem add_result_fields (mgr : LabStudyManager) (r : StudyResult) (n : String)
    (v : ℚ) (r2 : StudyResult) (h : StudyResult.add_result mgr r n v = .ok r2) :
    r2.study_name = r.study_name ∧ r2.biomaterial_type = r.biomaterial_type := by
  simp only [StudyResult.add_result] at h
  cases hs : lookupA mgr.studies r.study_name with
  | none => simp only [hs] at h; exact absurd h (by simp)
  | some study =>
    simp only [hs] at h
    by_cases hm : n ∈ study.tests.map StudyTest.test_name
    · rw [if_pos hm] at h
      cases hc : lookupA mgr.catalogs r.biomaterial_type with
      | none => simp only [hc] at h; exact absurd h (by simp)
      | some cat =>
        simp only [hc] at h
        cases hr : lookupA cat n with
        | none => simp only [hr] at h; exact absurd h (by simp)
        | some ref =>
          simp only [hr, Except.ok.injEq] at h
          rw [← h]
          exact ⟨rfl, rfl⟩
    · rw [if_neg hm] at h
      exact absurd h (by simp)

/-- The state reached by `add_results` keeps the bound study and
biomaterial. -/
theorem add_results_fields (mgr : LabStudyManager) (r : StudyResult)
    (l : List (String × ℚ)) :
    (StudyResult.add_results mgr r l).1.study_name = r.study_name ∧
    (StudyResult.add_results mgr r l).1.biomaterial_type = r.biomaterial_type := by
  induction l generalizing r with
  | nil => exact ⟨rfl, rfl⟩
  | cons e rest ih =>
    obtain ⟨n, v⟩ := e
    simp only [StudyResult.add_results]
    cases hadd : StudyResult.add_result mgr r n v with
    | ok r2 =>
      have hf := add_result_fields mgr r n v r2 hadd
      exact ⟨(ih r2).1.trans hf.1, (ih r2).2.trans hf.2⟩
    | error err => exact ⟨rfl, rfl⟩

/-- `add_results` over a concatenation: the second half runs only when the
first half raised no error; otherwise the state and error of the first half
are final. -/
theorem add_results_append (mgr : LabStudyManager) (r : StudyResult)
    (xs ys : List (String × ℚ)) :
    StudyResult.add_results mgr r (xs ++ ys) =
      (match StudyResult.add_results mgr r xs with
       | (r2, none) => StudyResult.add_results mgr r2 ys
       | (r2, some e) => (r2, some e)) := by
  induction xs generalizing r with
  | nil => rfl
  | cons e rest ih =>
    obtain ⟨n, v⟩ := e
    simp only [List.cons_append, StudyResult.add_results]
    cases hadd : StudyResult.add_result mgr r n v with
    | ok r2 => exact ih r2
    | error err => rfl

/-- C7, counterexample: on a study whose panel is `[a]`, adding the map
`{a: 1, b: 2}` raises `TestNotInStudy` for `b`, yet the stored tests are
not left unchanged — `a` has been added to the initially empty result. -/
theorem C7_counterexample :
    (StudyResult.add_results exMgr7 exR7 [("a", 1), ("b", 2)]).2
      = some LabErr.TestNotInStudy ∧
    (StudyResult.add_results exMgr7 exR7 [("a", 1), ("b", 2)]).1.tests.map Prod.fst
      = ["a"] ∧
    exR7.tests.map Prod.fst = [] :=
  ⟨by rfl, by rfl, by rfl⟩

/-- C7, amended: `addResults` applies `addResult` entry by entry and fails
with `TestNotInStudy` at the first name outside the declared panel, but it
is not atomic: the entries already applied remain stored (the final state is
the state reached after the prefix preceding the failing entry). -/
theorem C7_not_atomic (mgr : LabStudyManager) (r : StudyResult)
    (study : StudyInfo) (pre : List (String × ℚ)) (bad : String) (v : ℚ)
    (rest : List (String × ℚ))
    (hs : lookupA mgr.studies r.study_name = some study)
    (hpre : (StudyResult.add_results mgr r pre).2 = none)
    (hbad : bad ∉ study.tests.map StudyTest.test_name) :
    StudyResult.add_results mgr r (pre ++ (bad, v) :: rest) =
      ((StudyResult.add_results mgr r pre).1, some LabErr.TestNotInStudy) := by
  have hname : (StudyResult.add_results mgr r pre).1.study_name = r.study_name :=
    (add_results_fields mgr r pre).1
  have hbadstep : StudyResult.add_result mgr (StudyResult.add_results mgr r pre).1 bad v
      = .error .TestNotInStudy := by
    simp only [StudyResult.add_result, hname, hs]
    rw [if_neg hbad]
  rw [add_results_append]
  rcases hres : StudyResult.add_results mgr r pre with ⟨r2, o⟩
  have ho : o = none := by rw [hres] at hpre; exact hpre
  subst ho
  rw [hres] at hbadstep
  simp only [StudyResult.add_results, hbadstep]

/-- C7, witness for the amended theorem on the concrete study and map. -/
theorem C7_not_atomic_witness :
    StudyResult.add_results exMgr7 exR7 ([("a", 1)] ++ ("b", 2) :: []) =
      ((StudyResult.add_results exMgr7 exR7 [("a", 1)]).1,
        some LabErr.TestNotInStudy) :=
  C7_not_atomic exMgr7 exR7 exStudy7 [("a", 1)] "b" 2 [] (by rfl) (by rfl)
    (by decide)

/-- An empty `_age_ranges` makes the age-banded pass fail. -/
theorem agePass_nil_ar (a : ℚ) : ∀ order : List String, agePass [] order a = none := by
  intro order
  induction order with
  | nil => rfl
  | cons s rest ih =>
    rw [agePass_cons]
    simp [lookupA, ih]

/-- An empty `_simple_refs` makes the simple pass fail. -/
theorem simplePass_nil_sr : ∀ order : List String, simplePass ([] : List (String × SimpleRef)) order = none := by
  intro order
  induction order with
  | nil => rfl
  | cons s rest ih => simp [simplePass, lookupA, ih]

/-- On a single-key table whose bands all miss, the age pass fails for any
search order. -/
theorem agePass_single_none (k : String) (l : List AgeRange) (a : ℚ)
    (h : l.find? (fun b => b.contains_age a) = none) :
    ∀ order : List String, agePass [(k, l)] order a = none := by
  intro order
  induction order with
  | nil => rfl
  | cons s rest ih =>
    rw [agePass_cons]
    by_cases hks : k = s
    · subst hks
      simp [lookupA, h, ih]
    · simp [lookupA, hks, ih]

/-- On a single-key table whose bands contain a first hit, the age pass
returns that hit for any search order containing the key. -/
theorem agePass_single_some (k : String) (l : List AgeRange) (a : ℚ) (b : AgeRange)
    (h : l.find? (fun c => c.contains_age a) = some b) :
    ∀ order : List String, k ∈ order → agePass [(k, l)] order a = some b := by
  intro order
  induction order with
  | nil => intro hmem; cases hmem
  | cons s rest ih =>
    intro hmem
    rw [agePass_cons]
    by_cases hks : k = s
    · simp [lookupA, hks, h]
    · have hm : k ∈ rest := by
        rcases List.mem_cons.mp hmem with h1 | h1
        · exact absurd h1 hks
        · exact h1
      simp [lookupA, hks, ih hm]

/-- On a single-key simple table, the simple pass returns the entry for any
search order containing the key. -/
theorem simplePass_single (k : String) (s : SimpleRef) :
    ∀ order : List String, k ∈ order → simplePass [(k, s)] order = some s := by
  intro order
  induction order with
  | nil => intro hmem; cases hmem
  | cons t rest ih =>
    intro hmem
    by_cases hkt : k = t
    · simp [simplePass, lookupA, hkt]
    · have hm : k ∈ rest := by
        rcases List.mem_cons.mp hmem with h1 | h1
        · exact absurd h1 hkt
        · exact h1
      simp [simplePass, lookupA, hkt, ih hm]

/-- The requested truthy sex key, and always `all`, occur in the search
order. -/
theorem mem_search_order (k : String) (sex : Option String)
    (hk : (sex = some k ∧ k ≠ "") ∨ k = "all") :
    k ∈ search_order sex := by
  rcases hk with ⟨rfl, hne⟩ | rfl
  · simp [search_order, hne]
  · cases sex with
    | none => simp [search_order]
    | some s =>
      by_cases hs : s = "" <;> simp [search_order, hs]

/-- The functional resolver selects the single entry whenever its key is the
truthy requested sex or `all`. -/
theorem pickSexRefs_single (k : String) (v : JVal) (sex : Option String)
    (hk : (sex = some k ∧ k ≠ "") ∨ k = "all") :
    pickSexRefs [(k, v)] sex = Sum.inl v := by
  rcases hk with ⟨rfl, hne⟩ | rfl
  · simp [pickSexRefs, lookupA, hne]
  · cases sex with
    | none => simp [pickSexRefs, lookupA]
    | some s =>
      by_cases hs : s = ""
      · simp [pickSexRefs, lookupA, hs]
      · by_cases hsa : ("all" : String) = s
        · simp [pickSexRefs, lookupA, hs, hsa]
        · simp [pickSexRefs, lookupA, hs, hsa]

/-- Appending bands one by one to an existing key extends its list. -/
theorem foldl_addAgeRange (k : String) (l : List AgeRange) :
    ∀ acc : List AgeRange,
      l.foldl (fun ar b => addAgeRange ar k b) [(k, acc)] = [(k, acc ++ l)] := by
  induction l with
  | nil => intro acc; simp
  | cons b bs ih =>
    intro acc
    have h1 : addAgeRange [(k, acc)] k b = [(k, acc ++ [b])] := by
      simp [addAgeRange]
    simp only [List.foldl_cons, h1, ih]
    simp

/-- `from_dict` on a single simple entry. -/
theorem from_dict_single_simple (name k : String) (s : SimpleRef)
    (hk : k ≠ "name_ru") :
    Reference.from_dict name [(k, JVal.simple s)] = ⟨name, name, [], [(k, s)]⟩ := by
  simp [Reference.from_dict, lookupA, hk, setAssoc]

/-- `from_dict` on a single age-banded entry: the key appears exactly when
the band list is nonempty. -/
theorem from_dict_single_bands (name k : String) (l : List AgeRange)
    (hk : k ≠ "name_ru") :
    Reference.from_dict name [(k, JVal.bands l)] =
      ⟨name, name, (match l with | [] => [] | _ => [(k, l)]), []⟩ := by
  cases l with
  | nil => simp [Reference.from_dict, lookupA, hk]
  | cons b bs =>
    have h1 : addAgeRange [] k b = [(k, [b])] := by simp [addAgeRange]
    simp [Reference.from_dict, lookupA, hk, List.foldl_cons, h1,
      foldl_addAgeRange k bs [b]]

/-- C10, counterexample: on a table with only a `male` age-banded entry and
the query (sex `female`, age 30), the object resolver falls back to the male
band and returns a range, while the functional resolver (no sex key, no
`all` key) returns the whole per-test mapping, which is not a range — so
the two resolution paths are not equivalent. -/
theorem C10_counterexample :
    Reference.get_reference (Reference.from_dict "hb" exData10) (some "female")
        (some 30)
      = some (RefOut.ofBand band10) ∧
    utils_get_reference exData10 (some "female") (some 30)
      = some (URes.table exData10) ∧
    (utils_get_reference exData10 (some "female") (some 30)).map URes.isRange
      = some false :=
  ⟨by rfl, by rfl, by rfl⟩

/-- C10, amended: the two resolvers agree on the direct-hit paths — on a
table with a single entry whose key is the truthy requested sex or `all`,
a simple entry resolves to the same range in both, and an age-banded entry
with an age given resolves to the first containing band in both (and both
fail together when no band contains the age).  The divergence of the claim
lies only in the fallback paths, which the functional resolver does not
implement. -/
theorem C10_equiv_single (name k : String) (v : JVal) (sex : Option String)
    (age : Option ℚ)
    (hk : (sex = some k ∧ k ≠ "") ∨ k = "all")
    (hnr : k ≠ "name_ru") :
    (∀ s, v = JVal.simple s →
       utils_get_reference [(k, v)] sex age
         = some (URes.range (RefOut.ofSimple s)) ∧
       Reference.get_reference (Reference.from_dict name [(k, v)]) sex age
         = some (RefOut.ofSimple s)) ∧
    (∀ l a, v = JVal.bands l → age = some a →
       utils_get_reference [(k, v)] sex age
         = (l.find? (fun b => b.contains_age a)).map
             (fun b => URes.range (RefOut.ofBand b)) ∧
       Reference.get_reference (Reference.from_dict name [(k, v)]) sex age
         = (l.find? (fun b => b.contains_age a)).map RefOut.ofBand) := by
  have hmem : k ∈ search_order sex := mem_search_order k sex hk
  constructor
  · rintro s rfl
    have hpick : pickSexRefs [(k, JVal.simple s)] sex = Sum.inl (JVal.simple s) :=
      pickSexRefs_single k (JVal.simple s) sex hk
    constructor
    · simp [utils_get_reference, hpick]
    · rw [from_dict_single_simple name k s hnr]
      cases age with
      | none =>
        simp only [Reference.get_reference]
        rw [simplePass_single k s (search_order sex) hmem]
        rfl
      | some a =>
        simp only [Reference.get_reference]
        rw [agePass_nil_ar a (search_order sex),
          simplePass_single k s (search_order sex) hmem]
        rfl
  · rintro l a rfl rfl
    have hpick : pickSexRefs [(k, JVal.bands l)] sex = Sum.inl (JVal.bands l) :=
      pickSexRefs_single k (JVal.bands l) sex hk
    constructor
    · simp [utils_get_reference, hpick]
    · rw [from_dict_single_bands name k l hnr]
      cases l with
      | nil =>
        simp only [Reference.get_reference]
        rw [agePass_nil_ar a (search_order sex), simplePass_nil_sr (search_order sex)]
        rfl
      | cons b bs =>
        cases hf : (b :: bs).find? (fun c => c.contains_age a) with
        | some c =>
          simp only [Reference.get_reference]
          rw [agePass_single_some k (b :: bs) a c hf (search_order sex) hmem]
          rfl
        | none =>
          simp only [Reference.get_reference]
          rw [agePass_single_none k (b :: bs) a hf (search_order sex),
            simplePass_nil_sr (search_order sex)]
          rfl

/-- C10, witness for the amended theorem on a one-entry simple table. -/
theorem C10_equiv_single_witness :
    utils_get_reference [("male", JVal.simple ⟨1, 2, "u"⟩)] (some "male") none
      = some (URes.range (RefOut.ofSimple ⟨1, 2, "u"⟩)) ∧
    Reference.get_reference
        (Reference.from_dict "t" [("male", JVal.simple ⟨1, 2, "u"⟩)])
        (some "male") none
      = some (RefOut.ofSimple ⟨1, 2, "u"⟩) :=
  (C10_equiv_single "t" "male" (JVal.simple ⟨1, 2, "u"⟩) (some "male") none
      (Or.inl ⟨rfl, by decide⟩) (by decide)).1 ⟨1, 2, "u"⟩ rfl
